import Mathlib

/-!
Verification of the spawner2 control-protocol core.

Shallow embedding of `src/spawner_driver/protocol_entities.rs`:
the `Message` decoder (`Message::parse`, `Message::parse_header`),
the `Controller` and `Agent` handle types, and models of the external
collaborators they use (`std::sync::mpsc::Sender`, `std::sync::Mutex`,
`StdioMapping`), faithful to the documented semantics of the Rust
standard library where the code calls into it.

Bytes are modelled as `Nat` (values 0..255 in practice), byte slices as
`List Nat`, and `usize` arithmetic as `Nat` with an explicit bound
`USIZE_MAX = 2^64 - 1` (64-bit target).
-/

/-- Rust `usize::MAX` on a 64-bit target; `usize::from_str_radix` fails with
`PosOverflow` when the parsed value would exceed this. -/
def USIZE_MAX : Nat := 2 ^ 64 - 1

/-- Rust `char::is_digit(c, 10)` in Rust: true exactly for the ASCII digits
`'0'..='9'` (code points 48..57). `c` is a Unicode code point. -/
def isAsciiDigit (c : Nat) : Bool := 48 ≤ c && c ≤ 57

/-- Numeric value of a run of ASCII decimal digit code points, most
significant first, as computed by `usize::from_str_radix(s, 10)` before
its overflow check. -/
def digitsVal (ds : List Nat) : Nat := ds.foldl (fun a d => a * 10 + (d - 48)) 0

/-- Rust `usize::from_str_radix(s, 10)` on a string of ASCII digits: `Err` on
the empty string (kind `Empty`) and on overflow past `usize::MAX`
(kind `PosOverflow`), otherwise `Ok` with the numeric value. -/
def fromStrRadix10 (ds : List Nat) : Option Nat :=
  if ds = [] then none
  else if digitsVal ds ≤ USIZE_MAX then some (digitsVal ds) else none

/-- A UTF-8 continuation byte, `0x80..=0xBF`. -/
def isUtf8Cont (b : Nat) : Bool := 128 ≤ b && b ≤ 191

/-- Valid range of the second byte of a 3-byte UTF-8 sequence whose lead
byte is `b` (excludes overlong forms for `0xE0` and surrogates for `0xED`). -/
def utf8Second3Ok (b c : Nat) : Bool :=
  if b = 224 then 160 ≤ c && c ≤ 191
  else if b = 237 then 128 ≤ c && c ≤ 159
  else isUtf8Cont c

/-- Valid range of the second byte of a 4-byte UTF-8 sequence whose lead
byte is `b` (excludes overlong forms for `0xF0` and code points above
`U+10FFFF` for `0xF4`). -/
def utf8Second4Ok (b c : Nat) : Bool :=
  if b = 240 then 144 ≤ c && c ≤ 191
  else if b = 244 then 128 ≤ c && c ≤ 143
  else isUtf8Cont c

/-- Rust `str::from_utf8` together with `str::chars`: decodes a byte sequence
into its list of Unicode code points, or `none` when the bytes are not
valid UTF-8 (RFC 3629: overlong encodings, surrogates and values above
`U+10FFFF` rejected). -/
def utf8Decode : List Nat → Option (List Nat)
  | [] => some []
  | b :: rest =>
    if b ≤ 127 then (utf8Decode rest).map (fun cs => b :: cs)
    else
      match rest with
      | [] => none
      | c1 :: rest1 =>
        if 194 ≤ b && b ≤ 223 then
          if isUtf8Cont c1 then
            (utf8Decode rest1).map (fun cs => ((b - 192) * 64 + (c1 - 128)) :: cs)
          else none
        else
          match rest1 with
          | [] => none
          | c2 :: rest2 =>
            if 224 ≤ b && b ≤ 239 then
              if utf8Second3Ok b c1 && isUtf8Cont c2 then
                (utf8Decode rest2).map
                  (fun cs => ((b - 224) * 4096 + (c1 - 128) * 64 + (c2 - 128)) :: cs)
              else none
            else
              match rest2 with
              | [] => none
              | c3 :: rest3 =>
                if 240 ≤ b && b ≤ 244 then
                  if utf8Second4Ok b c1 && isUtf8Cont c2 && isUtf8Cont c3 then
                    (utf8Decode rest3).map
                      (fun cs =>
                        ((b - 240) * 262144 + (c1 - 128) * 4096 + (c2 - 128) * 64 +
                          (c3 - 128)) :: cs)
                  else none
                else none

/-- Rust `pub struct AgentIdx(pub usize)` — zero-based agent identifier. -/
structure AgentIdx where
  val : Nat
deriving DecidableEq, Repr

/-- Embeds `enum MessageKind<'a> { Data(&'a [u8]), Terminate, Resume }`. The
borrowed payload slice is embedded as the list of its bytes. -/
inductive MessageKind
  | data (payload : List Nat)
  | terminate
  | resume
deriving DecidableEq, Repr

/-- Rust `struct Message<'a> { agent_idx: Option<AgentIdx>, kind: MessageKind<'a> }`. -/
structure Message where
  agent_idx : Option AgentIdx
  kind : MessageKind
deriving DecidableEq, Repr

/-- One constructor per distinct `Error::from(...)` site in
`Message::parse` / `Message::parse_header`, carrying the data the code
interpolates into the error string. -/
inductive ParseError
  | emptyMessage
  | missingTerminator
  | missingSeparator
  | missingHeader
  | invalidHeaderEncoding
  | invalidIndex (digits : List Nat)
  | invalidCommand (sfx : List Nat) (header : List Nat)
deriving DecidableEq, Repr

/-- Embeds `data.iter().position(|&x| x == b'#')` followed by the slicing
`(&data[..pos], &data[pos + 1..])`: splits at the first `'#'` (byte 35),
or `none` when there is no `'#'`. -/
def splitAtFirstHash : List Nat → Option (List Nat × List Nat)
  | [] => none
  | b :: rest =>
    if b = 35 then some ([], rest)
    else
      match splitAtFirstHash rest with
      | some (h, m) => some (b :: h, m)
      | none => none

/-- Embeds `Message::parse_header(header, msg)`: requires a non-empty header,
decodes it as UTF-8, counts the leading ASCII-digit chars, parses that
digit run with `usize::from_str_radix`, and interprets the remaining
chars as the command suffix (`""` data, `"W"` resume, `"S"` terminate). -/
def Message.parseHeader (header msg : List Nat) : Except ParseError (Nat × MessageKind) :=
  if header = [] then .error .missingHeader
  else
    match utf8Decode header with
    | none => .error .invalidHeaderEncoding
    | some headerStr =>
      let numDigits := (headerStr.takeWhile isAsciiDigit).length
      match fromStrRadix10 (headerStr.take numDigits) with
      | none => .error (.invalidIndex (headerStr.take numDigits))
      | some agent_idx =>
        let rest := headerStr.drop numDigits
        if rest = [] then .ok (agent_idx, .data msg)
        else if rest = [87] then .ok (agent_idx, .resume)
        else if rest = [83] then .ok (agent_idx, .terminate)
        else .error (.invalidCommand rest headerStr)

/-- Embeds `Message::parse(data)`: rejects the empty input, requires a trailing
`'\n'` (byte 10), splits at the first `'#'`, parses the header, and
translates the 1-based wire index to the 0-based internal form
(`0 ↦ None`, `x ↦ Some(AgentIdx(x - 1))`). -/
def Message.parse (data : List Nat) : Except ParseError Message :=
  if data = [] then .error .emptyMessage
  else if data.getLast? ≠ some 10 then .error .missingTerminator
  else
    match splitAtFirstHash data with
    | none => .error .missingSeparator
    | some (header, msg) =>
      (Message.parseHeader header msg).map fun p =>
        { agent_idx :=
            match p.1 with
            | 0 => none
            | Nat.succ x => some ⟨x⟩
          kind := p.2 }

/-- External `StdioMapping` (external value type from `crate::io`, `Copy`): stored
and returned opaquely by the handles; modelled as a pair of endpoint
identifiers. -/
structure StdioMapping where
  stdin_e : Nat
  stdout_e : Nat
deriving DecidableEq, Repr

/-- Rust `struct Controller { stdin: Arc<Mutex<WritePipe>>, sender: Sender<RunnerMessage>, mapping: StdioMapping }`.
The sender endpoint and the write pipe are external opaque types, taken
as type parameters. -/
structure Controller (σ π : Type) where
  stdin : π
  sender : σ
  mapping : StdioMapping

/-- Rust `struct Agent { idx: AgentIdx, sender: Sender<RunnerMessage>, mapping: StdioMapping }`. -/
structure Agent (σ : Type) where
  idx : AgentIdx
  sender : σ
  mapping : StdioMapping

/-- Embeds `Controller::new(sender, stdin_w, mapping)`. -/
def Controller.new {σ π : Type} (sender : σ) (stdin_w : π) (mapping : StdioMapping) :
    Controller σ π :=
  { sender := sender, stdin := stdin_w, mapping := mapping }

/-- Embeds `Controller::stdio_mapping(&self)` — returns the stored mapping by value. -/
def Controller.stdio_mapping {σ π : Type} (c : Controller σ π) : StdioMapping := c.mapping

/-- Embeds `Agent::new(idx, sender, mapping)`. -/
def Agent.new {σ : Type} (idx : AgentIdx) (sender : σ) (mapping : StdioMapping) : Agent σ :=
  { idx := idx, sender := sender, mapping := mapping }

/-- Embeds `Agent::idx(&self)` — returns the stored index by value. -/
def Agent.idxAccessor {σ : Type} (a : Agent σ) : AgentIdx := a.idx

/-- Embeds `Agent::stdio_mapping(&self)` — returns the stored mapping by value. -/
def Agent.stdio_mapping {σ : Type} (a : Agent σ) : StdioMapping := a.mapping

/-- Rust `std::sync::mpsc::SendError`: returned by `Sender::send` when the
`Receiver` has been dropped. -/
inductive SendError
  | disconnected
deriving DecidableEq, Repr

/-- State of the event bus (`std::sync::mpsc` channel, external):
whether the receiving end is still alive, and the FIFO queue of
messages enqueued so far. `α` stands for `RunnerMessage` (external). -/
structure EventBus (α : Type) where
  alive : Bool
  queue : List α

/-- Rust `Sender::<RunnerMessage>::send(msg)` (Rust std semantics): enqueues
the message and returns `Ok(())` while the receiver is alive; once the
receiver is dropped it leaves the channel unchanged and returns
`Err(SendError(msg))`. It never panics and never blocks. -/
def senderSend {α : Type} (bus : EventBus α) (m : α) : EventBus α × Except SendError Unit :=
  if bus.alive then ({ bus with queue := bus.queue ++ [m] }, .ok ())
  else (bus, .error .disconnected)

/-- Embeds `Controller::send(&self, msg)`: `let _ = self.sender.send(msg);` —
the `Result` is discarded, so the call always returns normally with the
updated bus state and surfaces neither an error nor a panic. -/
def Controller.sendBus {α : Type} (bus : EventBus α) (m : α) : EventBus α :=
  (senderSend bus m).1

/-- Embeds `Agent::send(&self, msg)`: identical body to `Controller::send`. -/
def Agent.sendBus {α : Type} (bus : EventBus α) (m : α) : EventBus α :=
  (senderSend bus m).1

/-- Sequential forwarding of the decoded events of one input stream, in
line order, through one handle's `send` (one reader thread performs
these sends one after another). -/
def forwardAll {α : Type} (bus : EventBus α) (msgs : List α) : EventBus α :=
  msgs.foldl Controller.sendBus bus

/-- Outcome of a call to `Controller::stdin`. -/
inductive StdinLockOutcome
  | acquired
  | panicked
deriving DecidableEq, Repr

/-- Rust `Mutex::lock` (Rust std semantics, external): acquiring a poisoned
mutex does not block or deadlock — it acquires the lock and returns
`Err(PoisonError { guard })`; on an unpoisoned mutex it returns
`Ok(guard)`. The poison flag is set when a thread panics while holding
the guard. -/
def mutexLock (poisoned : Bool) : Except Unit Unit :=
  if poisoned then .error () else .ok ()

/-- Embeds `Controller::stdin(&mut self)`: `self.stdin.lock().unwrap()` — the
`Result` from `Mutex::lock` is unwrapped, so a poisoned lock makes the
call panic instead of yielding the guard. -/
def Controller.stdinLock (poisoned : Bool) : StdinLockOutcome :=
  match mutexLock poisoned with
  | .ok _ => .acquired
  | .error _ => .panicked

/-! ## Helper lemmas about the decoder -/

theorem splitAtFirstHash_of_no_hash (l : List Nat) (h : 35 ∉ l) :
    splitAtFirstHash l = none := by
  induction l with
  | nil => rfl
  | cons b rest ih =>
    have hb : b ≠ 35 := fun hb => h (hb ▸ List.mem_cons_self b rest)
    have hrest : 35 ∉ rest := fun hm => h (List.mem_cons_of_mem b hm)
    simp only [splitAtFirstHash, if_neg hb, List.append_eq, ih hrest]

theorem splitAtFirstHash_append (h r : List Nat) (hh : 35 ∉ h) :
    splitAtFirstHash (h ++ 35 :: r) = some (h, r) := by
  induction h with
  | nil => simp [splitAtFirstHash]
  | cons b rest ih =>
    have hb : b ≠ 35 := fun hb => hh (hb ▸ List.mem_cons_self b rest)
    have hrest : 35 ∉ rest := fun hm => hh (List.mem_cons_of_mem b hm)
    simp only [List.cons_append, splitAtFirstHash, if_neg hb, List.append_eq, ih hrest]

theorem splitAtFirstHash_sound (d h m : List Nat) (hs : splitAtFirstHash d = some (h, m)) :
    d = h ++ 35 :: m ∧ 35 ∉ h := by
  induction d generalizing h m with
  | nil => simp [splitAtFirstHash] at hs
  | cons b rest ih =>
    by_cases hb : b = 35
    · subst hb
      simp only [splitAtFirstHash, if_pos rfl, Option.some.injEq, Prod.mk.injEq] at hs
      obtain ⟨rfl, rfl⟩ := hs
      exact ⟨rfl, List.not_mem_nil 35⟩
    · simp only [splitAtFirstHash, if_neg hb] at hs
      cases hrec : splitAtFirstHash rest with
      | none => rw [hrec] at hs; simp at hs
      | some pr =>
        obtain ⟨h0, m0⟩ := pr
        rw [hrec] at hs
        simp only [Option.some.injEq, Prod.mk.injEq] at hs
        obtain ⟨hh1, rfl⟩ := hs
        obtain ⟨hd, hnm⟩ := ih h0 m0 hrec
        constructor
        · rw [← hh1, hd, List.cons_append]
        · rw [← hh1]
          intro hmem
          rcases List.mem_cons.mp hmem with h35 | h35
          · exact hb h35.symm
          · exact hnm h35

theorem utf8Decode_cons_ascii (b : Nat) (hb : b ≤ 127) (rest : List Nat) :
    utf8Decode (b :: rest) = (utf8Decode rest).map (fun cs => b :: cs) := by
  rw [utf8Decode.eq_def]
  simp only [if_pos hb]

theorem utf8Decode_ascii_append (l r : List Nat) (hl : ∀ b ∈ l, b ≤ 127) :
    utf8Decode (l ++ r) = (utf8Decode r).map (fun cs => l ++ cs) := by
  induction l with
  | nil =>
    simp only [List.nil_append]
    cases utf8Decode r <;> rfl
  | cons b rest ih =>
    have hb : b ≤ 127 := hl b (List.mem_cons_self b rest)
    have hrest : ∀ x ∈ rest, x ≤ 127 := fun x hx => hl x (List.mem_cons_of_mem b hx)
    rw [List.cons_append, utf8Decode_cons_ascii b hb (rest ++ r), ih hrest]
    cases utf8Decode r <;> rfl

theorem utf8Decode_ascii (l : List Nat) (hl : ∀ b ∈ l, b ≤ 127) :
    utf8Decode l = some l := by
  have h2 := utf8Decode_ascii_append l [] hl
  rw [List.append_nil] at h2
  rw [h2, show utf8Decode [] = some [] from rfl]
  simp

theorem takeWhile_append_of (p : Nat → Bool) (ds rest : List Nat)
    (h1 : ∀ d ∈ ds, p d = true) (h2 : ∀ c, rest.head? = some c → p c = false) :
    (ds ++ rest).takeWhile p = ds := by
  induction ds with
  | nil =>
    cases rest with
    | nil => rfl
    | cons c cs => simp [List.takeWhile_cons, h2 c rfl]
  | cons d ds ih =>
    have hd : p d = true := h1 d (List.mem_cons_self d ds)
    have hds : ∀ x ∈ ds, p x = true := fun x hx => h1 x (List.mem_cons_of_mem d hx)
    simp [List.takeWhile_cons, hd, ih hds]

theorem digit_le_127 (ds : List Nat) (hds : ∀ d ∈ ds, isAsciiDigit d = true) :
    ∀ b ∈ ds, b ≤ 127 := by
  intro b hb
  have h2 := hds b hb
  simp only [isAsciiDigit, Bool.and_eq_true, decide_eq_true_eq] at h2
  omega

theorem parseHeader_eval (ds sfxB cps msg : List Nat)
    (hds : ∀ d ∈ ds, isAsciiDigit d = true)
    (hdec : utf8Decode sfxB = some cps)
    (hhead : ∀ c, cps.head? = some c → isAsciiDigit c = false)
    (hne : ds ++ sfxB ≠ []) :
    Message.parseHeader (ds ++ sfxB) msg =
      match fromStrRadix10 ds with
      | none => .error (.invalidIndex ds)
      | some v =>
        if cps = [] then .ok (v, .data msg)
        else if cps = [87] then .ok (v, .resume)
        else if cps = [83] then .ok (v, .terminate)
        else .error (.invalidCommand cps (ds ++ cps)) := by
  have hdecode : utf8Decode (ds ++ sfxB) = some (ds ++ cps) := by
    rw [utf8Decode_ascii_append ds sfxB (digit_le_127 ds hds), hdec]
    rfl
  have htake : (ds ++ cps).takeWhile isAsciiDigit = ds :=
    takeWhile_append_of isAsciiDigit ds cps hds hhead
  unfold Message.parseHeader
  rw [if_neg hne, hdecode]
  simp only [htake, List.take_left, List.drop_left]

theorem getLast_append_newline (l p : List Nat) :
    (l ++ 35 :: (p ++ [10])).getLast? = some 10 := by
  rw [show l ++ 35 :: (p ++ [10]) = (l ++ 35 :: p) ++ [10] by simp]
  exact List.getLast?_concat _

theorem parse_composed (header msg : List Nat) (hh : 35 ∉ header)
    (hlast : (header ++ 35 :: msg).getLast? = some 10) :
    Message.parse (header ++ 35 :: msg) =
      (Message.parseHeader header msg).map (fun p =>
        { agent_idx :=
            match p.1 with
            | 0 => none
            | Nat.succ x => some ⟨x⟩
          kind := p.2 }) := by
  have hne2 : header ++ 35 :: msg ≠ [] := by simp
  unfold Message.parse
  rw [if_neg hne2, if_neg (by simp [hlast]), splitAtFirstHash_append header msg hh]

theorem forwardAll_queue {α : Type} (bus : EventBus α) (msgs : List α)
    (halive : bus.alive = true) :
    (forwardAll bus msgs).queue = bus.queue ++ msgs ∧ (forwardAll bus msgs).alive = true := by
  induction msgs generalizing bus with
  | nil => simp [forwardAll, halive]
  | cons m ms ih =>
    have h1 : (Controller.sendBus bus m).alive = true := by
      simp [Controller.sendBus, senderSend, halive]
    have h2 : (Controller.sendBus bus m).queue = bus.queue ++ [m] := by
      simp [Controller.sendBus, senderSend, halive]
    obtain ⟨hq, ha⟩ := ih (Controller.sendBus bus m) h1
    have hfold : forwardAll bus (m :: ms) = forwardAll (Controller.sendBus bus m) ms := rfl
    rw [hfold, hq, h2, ha]
    simp

theorem parse_line_eval (ds sfx payload : List Nat)
    (hne : ds ≠ []) (hds : ∀ d ∈ ds, isAsciiDigit d = true)
    (hsfx : sfx = [] ∨ sfx = [87] ∨ sfx = [83])
    (hfit : digitsVal ds ≤ USIZE_MAX) :
    Message.parse (ds ++ sfx ++ 35 :: (payload ++ [10])) =
      .ok { agent_idx :=
              match digitsVal ds with
              | 0 => none
              | Nat.succ x => some ⟨x⟩,
            kind :=
              if sfx = [] then .data (payload ++ [10])
              else if sfx = [87] then .resume
              else .terminate } := by
  have hh : (35 : Nat) ∉ ds ++ sfx := by
    intro hmem
    rcases List.mem_append.mp hmem with hmem | hmem
    · have hd := hds 35 hmem
      simp [isAsciiDigit] at hd
    · rcases hsfx with rfl | rfl | rfl <;> simp at hmem
  have hsfxAscii : ∀ b ∈ sfx, b ≤ 127 := by
    rcases hsfx with rfl | rfl | rfl <;> intro b hb <;> simp at hb <;> omega
  have hdec : utf8Decode sfx = some sfx := utf8Decode_ascii sfx hsfxAscii
  have hhead : ∀ c, sfx.head? = some c → isAsciiDigit c = false := by
    rcases hsfx with rfl | rfl | rfl <;> intro c hc <;> simp at hc <;>
      subst hc <;> simp [isAsciiDigit]
  have hne2 : ds ++ sfx ≠ [] := by
    intro h0
    rcases List.append_eq_nil.mp h0 with ⟨h1, h2⟩
    exact hne h1
  have hfrom : fromStrRadix10 ds = some (digitsVal ds) := by
    unfold fromStrRadix10
    rw [if_neg hne, if_pos hfit]
  rw [parse_composed (ds ++ sfx) _ hh (getLast_append_newline _ _),
    parseHeader_eval ds sfx sfx _ hds hdec hhead hne2, hfrom]
  rcases hsfx with rfl | rfl | rfl <;> simp [Except.map]

/-- C1: every well-formed line `<digits><sfx>#<payload>\n` with the digit
run fitting `usize` and sfx one of `""`, `"W"`, `"S"` parses successfully;
the target is `None` iff the digit run has value 0 and `Some(AgentIdx(n-1))`
otherwise, and the kind is `Data` iff the sfx is empty, `Resume` iff it is
`"W"`, and `Terminate` iff it is `"S"`. -/
theorem claim_C1_wellformed_decode (ds sfx payload : List Nat)
    (hne : ds ≠ []) (hds : ∀ d ∈ ds, isAsciiDigit d = true)
    (hsfx : sfx = [] ∨ sfx = [87] ∨ sfx = [83])
    (hfit : digitsVal ds ≤ USIZE_MAX) :
    ∃ m : Message,
      Message.parse (ds ++ sfx ++ 35 :: (payload ++ [10])) = .ok m ∧
      (m.agent_idx = none ↔ digitsVal ds = 0) ∧
      (digitsVal ds ≠ 0 → m.agent_idx = some ⟨digitsVal ds - 1⟩) ∧
      ((∃ p, m.kind = .data p) ↔ sfx = []) ∧
      (m.kind = .resume ↔ sfx = [87]) ∧
      (m.kind = .terminate ↔ sfx = [83]) := by
  refine ⟨_, parse_line_eval ds sfx payload hne hds hsfx hfit, ?_, ?_, ?_, ?_, ?_⟩ <;>
    rcases hsfx with rfl | rfl | rfl <;>
    cases hval : digitsVal ds <;>
    simp [hval]

/-- Witness for C1: the concrete line `"12W#ab\n"` decodes to target
`Some(AgentIdx(11))` and kind `Resume`. -/
theorem claim_C1_witness :
    ∃ m : Message,
      Message.parse ([49, 50] ++ [87] ++ 35 :: ([97, 98] ++ [10])) = .ok m ∧
      (m.agent_idx = none ↔ digitsVal [49, 50] = 0) ∧
      (digitsVal [49, 50] ≠ 0 → m.agent_idx = some ⟨digitsVal [49, 50] - 1⟩) ∧
      ((∃ p, m.kind = .data p) ↔ ([87] : List Nat) = []) ∧
      (m.kind = .resume ↔ ([87] : List Nat) = [87]) ∧
      (m.kind = .terminate ↔ ([87] : List Nat) = [83]) :=
  claim_C1_wellformed_decode [49, 50] [87] [97, 98] (by decide) (by decide)
    (Or.inr (Or.inl rfl)) (by decide)

/-- C2 counterexample: `"1#abc\n"` decodes to a `Data` message whose
payload is `"abc\n"` — the trailing newline byte is part of the payload
slice (`msg = &data[hash_pos + 1..]` keeps it), so the payload does not
equal the bytes strictly before the terminator, contradicting the claim. -/
theorem claim_C2_counterexample :
    Message.parse [49, 35, 97, 98, 99, 10] =
      .ok { agent_idx := some ⟨0⟩, kind := .data [97, 98, 99, 10] } ∧
    ([97, 98, 99, 10] : List Nat) ≠ [97, 98, 99] := ⟨rfl, by decide⟩

theorem parseHeader_data_payload (header msg : List Nat) (p : Nat × MessageKind)
    (pl : List Nat) (h : Message.parseHeader header msg = .ok p) (hk : p.2 = .data pl) :
    pl = msg := by
  simp only [Message.parseHeader] at h
  split at h
  · cases h
  · split at h
    · cases h
    · split at h
      · cases h
      · split at h
        · cases h
          cases hk
          rfl
        · split at h
          · cases h
            cases hk
          · split at h
            · cases h
              cases hk
            · cases h

/-- C2 (amended): for every line that `Message::parse` decodes to a
`Data` message, the payload slice equals exactly the bytes of the input
strictly after the first `'#'` up to and including the trailing `'\n'`
(the newline terminator IS part of the payload), and that slice is a
contiguous sub-range of the original input, unmodified. -/
theorem claim_C2_payload_subrange (data : List Nat) (m : Message) (payload : List Nat)
    (hok : Message.parse data = .ok m) (hkind : m.kind = .data payload) :
    ∃ header, data = header ++ 35 :: payload ∧ 35 ∉ header ∧
      payload.getLast? = some 10 := by
  simp only [Message.parse] at hok
  split at hok
  · cases hok
  · split at hok
    · cases hok
    · rename_i hne hterm
      split at hok
      · cases hok
      · rename_i pr header msg hsplit
        cases hph : Message.parseHeader header msg with
        | error e => rw [hph] at hok; cases hok
        | ok p =>
          rw [hph] at hok
          simp only [Except.map] at hok
          cases hok
          have hpl : payload = msg := parseHeader_data_payload header msg p payload hph hkind
          obtain ⟨hd, hnm⟩ := splitAtFirstHash_sound data header msg hsplit
          subst hpl
          refine ⟨header, hd, hnm, ?_⟩
          rw [hd] at hterm
          have h10 : (header ++ 35 :: payload).getLast? = some 10 := not_not.mp hterm
          rw [List.getLast?_append_cons] at h10
          cases payload with
          | nil => simp at h10
          | cons q qs => rwa [List.getLast?_cons_cons] at h10

/-- Witness for C2 (amended) at the line `"1#ab\n"`: the `Data` payload
`"ab\n"` is the sub-range after the `'#'`, newline included. -/
theorem claim_C2_witness :
    ∃ header, ([49, 35, 97, 98, 10] : List Nat) = header ++ 35 :: [97, 98, 10] ∧
      35 ∉ header ∧ ([97, 98, 10] : List Nat).getLast? = some 10 :=
  claim_C2_payload_subrange [49, 35, 97, 98, 10]
    { agent_idx := some ⟨0⟩, kind := .data [97, 98, 10] } [97, 98, 10] rfl rfl

theorem claim_C3_error_taxonomy :
    (Message.parse [] = .error .emptyMessage) ∧
    (∀ data : List Nat, data ≠ [] → data.getLast? ≠ some 10 →
      Message.parse data = .error .missingTerminator) ∧
    (∀ data : List Nat, data ≠ [] → data.getLast? = some 10 → 35 ∉ data →
      Message.parse data = .error .missingSeparator) ∧
    (∀ rest : List Nat, rest.getLast? = some 10 →
      Message.parse (35 :: rest) = .error .missingHeader) ∧
    (∀ header payload : List Nat, header ≠ [] → 35 ∉ header → utf8Decode header = none →
      Message.parse (header ++ 35 :: (payload ++ [10])) = .error .invalidHeaderEncoding) ∧
    (∀ ds payload : List Nat, ds ≠ [] → (∀ d ∈ ds, isAsciiDigit d = true) →
      USIZE_MAX < digitsVal ds →
      Message.parse (ds ++ 35 :: (payload ++ [10])) = .error (.invalidIndex ds)) ∧
    (∀ ds sfxB cps payload : List Nat, ds ≠ [] → (∀ d ∈ ds, isAsciiDigit d = true) →
      digitsVal ds ≤ USIZE_MAX → 35 ∉ sfxB → utf8Decode sfxB = some cps → cps ≠ [] →
      (∀ c, cps.head? = some c → isAsciiDigit c = false) → cps ≠ [87] → cps ≠ [83] →
      Message.parse (ds ++ sfxB ++ 35 :: (payload ++ [10])) =
        .error (.invalidCommand cps (ds ++ cps))) := by
  refine ⟨rfl, ?_, ?_, ?_, ?_, ?_, ?_⟩
  · -- missing terminator
    intro data hne hterm
    unfold Message.parse
    rw [if_neg hne, if_pos hterm]
  · -- missing separator
    intro data hne hterm hnh
    unfold Message.parse
    rw [if_neg hne, if_neg (not_not_intro hterm), splitAtFirstHash_of_no_hash data hnh]
  · -- missing header
    intro rest hterm
    have hne : (35 :: rest : List Nat) ≠ [] := by simp
    have hlast : (35 :: rest).getLast? = some 10 := by
      cases rest with
      | nil => simp at hterm
      | cons q qs => rwa [List.getLast?_cons_cons]
    unfold Message.parse
    rw [if_neg hne, if_neg (not_not_intro hlast)]
    have hsplit : splitAtFirstHash (35 :: rest) = some ([], rest) := by
      simp [splitAtFirstHash]
    rw [hsplit]
    rfl
  · -- invalid header encoding
    intro header payload hne hnh hdec
    rw [parse_composed header _ hnh (getLast_append_newline _ _)]
    unfold Message.parseHeader
    rw [if_neg hne, hdec]
    rfl
  · -- invalid index (overflow)
    intro ds payload hne hds hover
    have hnh : (35 : Nat) ∉ ds := by
      intro hmem
      have hd := hds 35 hmem
      simp [isAsciiDigit] at hd
    have heval := parseHeader_eval ds [] [] (payload ++ [10]) hds rfl
      (by intro c hc; simp at hc) (by simpa using hne)
    rw [List.append_nil] at heval
    rw [parse_composed ds _ hnh (getLast_append_newline _ _), heval]
    have hfrom : fromStrRadix10 ds = none := by
      unfold fromStrRadix10
      rw [if_neg hne, if_neg (not_le.mpr hover)]
    rw [hfrom]
    rfl
  · -- invalid command
    intro ds sfxB cps payload hne hds hfit hnhs hdec hcne hhead hw hs
    have hnh : (35 : Nat) ∉ ds ++ sfxB := by
      intro hmem
      rcases List.mem_append.mp hmem with hmem | hmem
      · have hd := hds 35 hmem
        simp [isAsciiDigit] at hd
      · exact hnhs hmem
    have hne2 : ds ++ sfxB ≠ [] := by
      intro h0
      rcases List.append_eq_nil.mp h0 with ⟨h1, h2⟩
      exact hne h1
    have hfrom : fromStrRadix10 ds = some (digitsVal ds) := by
      unfold fromStrRadix10
      rw [if_neg hne, if_pos hfit]
    rw [parse_composed (ds ++ sfxB) _ hnh (getLast_append_newline _ _),
      parseHeader_eval ds sfxB cps _ hds hdec hhead hne2, hfrom]
    simp [Except.map, hcne, hw, hs]

/-- Witness for C3: one concrete malformed input per error kind
(`""`, `"abc"`, `"0abc\n"`, `"#p\n"`, `"\xff#p\n"`,
`"99999999999999999999#x\n"`, `"1X#p\n"`). -/
theorem claim_C3_witness :
    (Message.parse [] = .error .emptyMessage) ∧
    (Message.parse [97, 98, 99] = .error .missingTerminator) ∧
    (Message.parse [48, 97, 98, 99, 10] = .error .missingSeparator) ∧
    (Message.parse (35 :: [112, 10]) = .error .missingHeader) ∧
    (Message.parse ([255] ++ 35 :: ([112] ++ [10])) = .error .invalidHeaderEncoding) ∧
    (Message.parse ([57, 57, 57, 57, 57, 57, 57, 57, 57, 57, 57, 57, 57, 57, 57, 57,
        57, 57, 57, 57] ++ 35 :: ([120] ++ [10])) =
      .error (.invalidIndex [57, 57, 57, 57, 57, 57, 57, 57, 57, 57, 57, 57, 57, 57,
        57, 57, 57, 57, 57, 57])) ∧
    (Message.parse ([49] ++ [88] ++ 35 :: ([112] ++ [10])) =
      .error (.invalidCommand [88] ([49] ++ [88]))) := by
  obtain ⟨h1, h2, h3, h4, h5, h6, h7⟩ := claim_C3_error_taxonomy
  refine ⟨h1, h2 _ (by decide) (by decide), h3 _ (by decide) (by decide) (by decide),
    h4 _ (by decide), h5 _ _ (by decide) (by decide) rfl,
    h6 _ _ (by decide) (by decide) (by decide),
    h7 [49] [88] [88] [112] (by decide) (by decide) (by decide) (by decide) rfl
      (by decide) ?_ (by decide) (by decide)⟩
  intro c hc
  cases hc
  decide

/-- C4 counterexample: with the input-stream mutex poisoned by a
panicking writer, `Controller::stdin` does not succeed — the
`lock().unwrap()` propagates the poison as a panic, contradicting the
claim that every subsequent acquisition still succeeds. -/
theorem claim_C4_counterexample : Controller.stdinLock true = .panicked := rfl

/-- C4 (amended): a poisoned lock never deadlocks a subsequent
`Controller::stdin` call — `Mutex::lock` returns, with the poison error —
but the call then panics via `unwrap` instead of recovering; it yields
the guard exactly when the lock is unpoisoned. -/
theorem claim_C4_poison_behavior :
    Controller.stdinLock false = .acquired ∧
    Controller.stdinLock true = .panicked ∧
    mutexLock true = .error () ∧
    mutexLock false = .ok () := ⟨rfl, rfl, rfl, rfl⟩

/-- C5: `send` on a Controller or Agent handle is best-effort — when the
receiving end of the event bus has been dropped, the underlying channel
send fails, but the handle's `send` discards that failure (`let _ = ...`)
and returns normally, leaving the bus unchanged and surfacing no error. -/
theorem claim_C5_send_best_effort {α : Type} (bus : EventBus α) (m : α)
    (hdead : bus.alive = false) :
    Controller.sendBus bus m = bus ∧ Agent.sendBus bus m = bus ∧
    (senderSend bus m).2 = .error .disconnected := by
  simp [Controller.sendBus, Agent.sendBus, senderSend, hdead]

/-- Witness for C5 on a concrete dead bus. -/
theorem claim_C5_witness :
    Controller.sendBus (⟨false, [7]⟩ : EventBus Nat) 0 = ⟨false, [7]⟩ ∧
    Agent.sendBus (⟨false, [7]⟩ : EventBus Nat) 0 = ⟨false, [7]⟩ ∧
    (senderSend (⟨false, [7]⟩ : EventBus Nat) 0).2 = .error .disconnected :=
  claim_C5_send_best_effort ⟨false, [7]⟩ 0 rfl

/-- C6: `Message::parse` is a deterministic pure function of its input
bytes — in this embedding it is a function, mirroring that the Rust code
only reads through a shared `&[u8]` borrow and performs no mutation — so
identical byte slices always produce equal results. -/
theorem claim_C6_deterministic (d1 d2 : List Nat) (h : d1 = d2) :
    Message.parse d1 = Message.parse d2 := by rw [h]

/-- Witness for C6 at the concrete line `"1#\n"`. -/
theorem claim_C6_witness :
    Message.parse [49, 35, 10] = Message.parse [49, 35, 10] :=
  claim_C6_deterministic [49, 35, 10] [49, 35, 10] rfl

/-- C7: forwarding the decoded events of one input stream in line order
through a handle's `send` (std `mpsc` FIFO semantics) enqueues each event
exactly once, in order, with no reordering, duplication, loss, or
batching, while the receiver is alive. -/
theorem claim_C7_order_preserved {α : Type} (bus : EventBus α) (msgs : List α)
    (halive : bus.alive = true) :
    (forwardAll bus msgs).queue = bus.queue ++ msgs ∧
    (forwardAll bus msgs).alive = true :=
  forwardAll_queue bus msgs halive

/-- Witness for C7: three events forwarded into a live bus arrive after
the existing queue, in order. -/
theorem claim_C7_witness :
    (forwardAll (⟨true, [5]⟩ : EventBus Nat) [1, 2, 3]).queue = [5] ++ [1, 2, 3] ∧
    (forwardAll (⟨true, [5]⟩ : EventBus Nat) [1, 2, 3]).alive = true :=
  claim_C7_order_preserved ⟨true, [5]⟩ [1, 2, 3] rfl

/-- C8: the accessors return by value exactly what `new` stored —
`stdio_mapping()` the `StdioMapping`, `idx()` the `AgentIdx` — and `new`
stores every argument unchanged; in this pure embedding the accessors
are projections, so they modify no field. -/
theorem claim_C8_accessors {σ π : Type} (s : σ) (w : π) (mp : StdioMapping) (i : AgentIdx) :
    (Controller.new s w mp).stdio_mapping = mp ∧
    (Controller.new s w mp).stdin = w ∧
    (Controller.new s w mp).sender = s ∧
    (Agent.new i s mp).idxAccessor = i ∧
    (Agent.new i s mp).stdio_mapping = mp ∧
    (Agent.new i s mp).sender = s :=
  ⟨rfl, rfl, rfl, rfl, rfl, rfl⟩

/-- C9: a line containing more than one `'#'` is not rejected for that
reason — the split happens at the first `'#'`, later `'#'` bytes land in
the payload, and a well-formed header still decodes successfully. -/
theorem claim_C9_first_hash_split (ds sfx p1 p2 : List Nat)
    (hne : ds ≠ []) (hds : ∀ d ∈ ds, isAsciiDigit d = true)
    (hsfx : sfx = [] ∨ sfx = [87] ∨ sfx = [83])
    (hfit : digitsVal ds ≤ USIZE_MAX) :
    ∃ m : Message,
      Message.parse (ds ++ sfx ++ 35 :: ((p1 ++ 35 :: p2) ++ [10])) = .ok m ∧
      (sfx = [] → m.kind = .data ((p1 ++ 35 :: p2) ++ [10])) := by
  refine ⟨_, parse_line_eval ds sfx (p1 ++ 35 :: p2) hne hds hsfx hfit, ?_⟩
  intro h
  subst h
  simp

/-- Witness for C9 at the line `"1#a#b\n"`: the second `'#'` stays in
the payload. -/
theorem claim_C9_witness :
    ∃ m : Message,
      Message.parse ([49] ++ [] ++ 35 :: (([97] ++ 35 :: [98]) ++ [10])) = .ok m ∧
      (([] : List Nat) = [] → m.kind = .data (([97] ++ 35 :: [98]) ++ [10])) :=
  claim_C9_first_hash_split [49] [] [97] [98] (by decide) (by decide)
    (Or.inl rfl) (by decide)

/-- C10: a line whose header is non-empty valid UTF-8 but does not start
with an ASCII digit fails with the agent-index parse error (the empty
digit run is handed to `usize::from_str_radix`, which rejects `""`), not
with the missing-header or invalid-command error. -/
theorem claim_C10_empty_digit_run (sfxB cps payload : List Nat)
    (hne : sfxB ≠ []) (hdec : utf8Decode sfxB = some cps)
    (hhead : ∀ c, cps.head? = some c → isAsciiDigit c = false)
    (hnh : 35 ∉ sfxB) :
    Message.parse (sfxB ++ 35 :: (payload ++ [10])) = .error (.invalidIndex []) := by
  have heval := parseHeader_eval [] sfxB cps (payload ++ [10]) (by simp) hdec hhead
    (by simpa using hne)
  rw [List.nil_append] at heval
  rw [parse_composed sfxB _ hnh (getLast_append_newline _ _), heval]
  rfl

/-- Witness for C10 at the line `"W#x\n"`: header `"W"` is a recognized
suffix but has no leading digit, so decoding fails with the index error. -/
theorem claim_C10_witness :
    Message.parse ([87] ++ 35 :: ([120] ++ [10])) = .error (.invalidIndex []) := by
  refine claim_C10_empty_digit_run [87] [87] [120] (by decide) rfl ?_ (by decide)
  intro c hc
  cases hc
  decide
